import Mathlib

/-!
Verification of the interaction state machine of the `file-browser`
program (src/main.rs): a two-pane terminal file browser with a modal
path editor and fuzzy directory suggestions.

The embedding translates the Rust source shallowly:
* `Field`, `Mode`, `State` mirror the Rust enums/struct of the same names.
* The key-dispatch logic of the `run` loop becomes the pure function
  `step`, parameterised by two oracles for the program's external calls:
  `search` (the result of `run_fzf_query` for a query string) and
  `fs` (the outcome of `read_dir` plus per-entry `metadata` calls).
* `update_fzf` and `read_path_content` are translated directly.
* `draw` becomes a pure projection from `State` to a `Frame` description
  recording which text is rendered into which region.

`PathBuf` is modelled as `String`.  ratatui's `ListState` is modelled by
its `selected` field, the only part the program reads or writes through
`selected()` / `select(..)`; its render-internal scroll offset is not
part of the program's state machine.
-/

namespace FileBrowser

/-- Mirrors Rust `enum Field { LeftPath, RightPath }`. -/
inductive Field where
  | LeftPath
  | RightPath
deriving DecidableEq, Repr

/-- Mirrors Rust `enum Mode { Normal, Edit(Field) }`.  `Normal` is the
spec's Browse mode. -/
inductive Mode where
  | Normal
  | Edit (field : Field)
deriving DecidableEq, Repr

/-- The part of ratatui's `ListState` the program uses: the optional
selected index, read via `selected()` and written via `select(..)`. -/
structure ListState where
  selected : Option Nat
deriving DecidableEq, Repr

/-- Mirrors ratatui `ListState::default()`: no selection. -/
def ListState.default : ListState := ⟨none⟩

/-- Mirrors ratatui `ListState::select(index)`. -/
def ListState.select (_ : ListState) (index : Option Nat) : ListState :=
  ⟨index⟩

/-- Mirrors Rust `struct State` (src/main.rs lines 57-69). -/
structure State where
  mode : Mode
  left_path : String
  right_path : String
  fzf_suggestions : Option (List String)
  left_contents : Option (List String)
  right_contents : Option (List String)
  input : String
  left_list_state : ListState
  right_list_state : ListState
  fzf_list_state : ListState
deriving DecidableEq, Repr

/-- The key codes the program's `match` arms distinguish; `Other` stands
for every `KeyCode` variant that only the wildcard arms catch. -/
inductive KeyCode where
  | Char (c : Char)
  | Esc
  | Up
  | Down
  | Tab
  | Enter
  | Backspace
  | Other
deriving DecidableEq, Repr

/-- Classification of a directory child as produced by `Metadata::is_file`:
we only need to know whether the metadata call succeeded and, if so,
whether the entry is a regular file. -/
inductive FileKind where
  | file
  | dir
  | symlink
  | other
deriving DecidableEq, Repr

/-- One child of a directory as the program observes it: its path and the
outcome of `entry.metadata()` (`none` when the metadata call fails). -/
structure DirEntry where
  path : String
  meta : Option FileKind
deriving DecidableEq, Repr

/-- Oracle for the filesystem as `read_path_content` observes it:
for a path, `none` when `read_dir` fails, otherwise the iterator's
items, each `none` when that item was an `Err` (skipped by `flatten`). -/
def FsOracle : Type := String → Option (List (Option DirEntry))

/-- Oracle for `run_fzf_query`: a query either succeeds with a ranked
list of directory paths or fails. -/
def SearchOracle : Type := String → Except String (List String)

/-- Translation of `read_path_content` (src/main.rs lines 183-195):
`read_dir` failure gives `[]`; the entry iterator is `flatten`ed (Err
items skipped); each surviving entry contributes its path when its
metadata call succeeds and classifies it as a regular file, and nothing
otherwise. -/
def read_path_content (fs : FsOracle) (path : String) : List String :=
  match fs path with
  | none => []
  | some items =>
      ((items.filterMap id).map (fun entry =>
        match entry.meta with
        | none => []
        | some kind => if kind = FileKind.file then [entry.path] else [])).flatten

/-- Translation of `update_fzf` (src/main.rs lines 175-181), applied to
the already-awaited result of `run_fzf_query`: a success replaces
`fzf_suggestions`, a failure changes nothing. -/
def update_fzf (result : Except String (List String)) (s : State) : State :=
  match result with
  | Except.ok v => { s with fzf_suggestions := some v }
  | Except.error _ => s

/-- The key-event dispatch of the `run` loop (src/main.rs lines 93-167)
as a pure transition: given the oracles, a state and a key, return the
new state and whether the loop breaks (`q` in Normal mode). -/
def step (search : SearchOracle) (fs : FsOracle) (s : State)
    (k : KeyCode) : State × Bool :=
  match s.mode with
  | Mode.Normal =>
      match k with
      | KeyCode.Char c =>
          if c = 'q' then (s, true)
          else if c = 'H' then ({ s with mode := Mode.Edit Field.LeftPath }, false)
          else if c = 'L' then ({ s with mode := Mode.Edit Field.RightPath }, false)
          else (s, false)
      | _ => (s, false)
  | Mode.Edit field =>
      match k with
      | KeyCode.Esc => ({ s with mode := Mode.Normal }, false)
      | KeyCode.Up =>
          match s.fzf_list_state.selected with
          | some v =>
              if v > 0 then
                ({ s with fzf_list_state := s.fzf_list_state.select (some (v - 1)) }, false)
              else
                ({ s with fzf_list_state := s.fzf_list_state.select none }, false)
          | none => (s, false)
      | KeyCode.Down =>
          match s.fzf_list_state.selected with
          | some v =>
              ({ s with fzf_list_state := s.fzf_list_state.select (some (v + 1)) }, false)
          | none =>
              ({ s with fzf_list_state :=
                  s.fzf_list_state.select (some (s.fzf_list_state.selected.getD 0)) }, false)
      | KeyCode.Tab => (s, false)
      | KeyCode.Char c =>
          let s1 := { s with input := s.input.push c }
          (update_fzf (search s1.input) s1, false)
      | KeyCode.Enter =>
          let s2 :=
            match field with
            | Field.LeftPath =>
                { s with left_path := s.input,
                         left_contents := some (read_path_content fs s.input) }
            | Field.RightPath =>
                { s with right_path := s.input,
                         right_contents := some (read_path_content fs s.input) }
          ({ s2 with input := "", mode := Mode.Normal }, false)
      | KeyCode.Backspace =>
          let s1 := { s with input := s.input.dropRight 1 }
          (update_fzf (search s1.input) s1, false)
      | KeyCode.Other => (s, false)

/-- The frame drawn in Normal (Browse) mode (src/main.rs lines 200-251):
one text per rendered region.  The code renders `left_path_text` into
both the left header chunk and the right header chunk. -/
structure BrowseFrame where
  leftHeader : String
  leftList : List String
  rightHeader : String
deriving DecidableEq, Repr

/-- The frame drawn in Edit mode (src/main.rs lines 252-281). -/
structure EditFrame where
  inputBox : String
  suggestionList : List String
deriving DecidableEq, Repr

/-- A rendered frame description. -/
inductive Frame where
  | browse (f : BrowseFrame)
  | edit (f : EditFrame)
deriving DecidableEq, Repr

/-- Translation of `draw` (src/main.rs lines 197-284) as a pure
projection from state to the texts placed in each region, including the
inner `match state.mode` that picks the header text. -/
def draw (s : State) : Frame :=
  match s.mode with
  | Mode.Normal =>
      let left_contents := s.left_contents.getD []
      let left_path :=
        match s.mode with
        | Mode.Edit Field.LeftPath => s.input
        | _ => s.left_path
      Frame.browse
        { leftHeader := left_path
          leftList := left_contents
          rightHeader := left_path }
  | Mode.Edit _ =>
      Frame.edit
        { inputBox := s.input
          suggestionList := s.fzf_suggestions.getD [] }

/-- A search oracle that always fails, used for concrete evaluations. -/
def searchFail : SearchOracle := fun _ => Except.error "fzf failed"

/-- A filesystem oracle on which every `read_dir` fails, used for
concrete evaluations. -/
def fsEmpty : FsOracle := fun _ => none

/-- The initial state built in `main` (src/main.rs lines 28-39). -/
def initState : State :=
  { mode := Mode.Normal
    left_path := "~/"
    right_path := "~/"
    fzf_suggestions := none
    left_contents := none
    right_contents := none
    input := ""
    left_list_state := ListState.default
    right_list_state := ListState.default
    fzf_list_state := ListState.default }

/-- The merge step `update_fzf` only ever writes `fzf_suggestions`;
every other field of the state is preserved for every query result. -/
theorem update_fzf_preserves (r : Except String (List String)) (t : State) :
    (update_fzf r t).mode = t.mode ∧
    (update_fzf r t).left_path = t.left_path ∧
    (update_fzf r t).right_path = t.right_path ∧
    (update_fzf r t).left_contents = t.left_contents ∧
    (update_fzf r t).right_contents = t.right_contents ∧
    (update_fzf r t).input = t.input ∧
    (update_fzf r t).fzf_list_state = t.fzf_list_state := by
  cases r <;> exact ⟨rfl, rfl, rfl, rfl, rfl, rfl, rfl⟩

/-- A Browse-mode state with a non-empty input buffer and existing
suggestions; such states are reachable by entering edit mode, typing a
character, and cancelling with Esc. -/
def cexBrowse : State :=
  { initState with input := "a", fzf_suggestions := some ["x"] }

/-- An Edit-mode state (left pane) with a non-empty input buffer. -/
def cexEdit : State :=
  { cexBrowse with mode := Mode.Edit Field.LeftPath }

/-- C1 counterexample: in the Browse-mode state `cexBrowse` (input
buffer `"a"`, suggestions `some ["x"]`), pressing `H` enters Edit(Left)
but the input buffer is NOT reset to empty and the suggestion list is
NOT reset to `none`, contrary to the claim. -/
theorem c1_counterexample :
    (step searchFail fsEmpty cexBrowse (KeyCode.Char 'H')).1.mode
        = Mode.Edit Field.LeftPath ∧
    (step searchFail fsEmpty cexBrowse (KeyCode.Char 'H')).1.input ≠ "" ∧
    (step searchFail fsEmpty cexBrowse (KeyCode.Char 'H')).1.fzf_suggestions ≠ none := by
  refine ⟨rfl, ?_, ?_⟩ <;> decide

/-- C1 amended: for every Browse-mode state, `H` (resp. `L`) enters Edit
mode targeting the left (resp. right) pane and leaves every other field
of the state — in particular the input buffer and the suggestion list —
exactly unchanged: the transition performs no reset. -/
theorem c1_enter_edit_preserves_buffer (search : SearchOracle) (fs : FsOracle)
    (s : State) (h : s.mode = Mode.Normal) :
    step search fs s (KeyCode.Char 'H')
        = ({ s with mode := Mode.Edit Field.LeftPath }, false) ∧
    step search fs s (KeyCode.Char 'L')
        = ({ s with mode := Mode.Edit Field.RightPath }, false) := by
  obtain ⟨m, lp, rp, sug, lc, rc, inp, a, b, c⟩ := s
  change m = Mode.Normal at h
  subst h
  exact ⟨rfl, rfl⟩

/-- Witness for `c1_enter_edit_preserves_buffer` at the concrete state
`cexBrowse`. -/
theorem c1_enter_edit_preserves_buffer_witness :
    step searchFail fsEmpty cexBrowse (KeyCode.Char 'H')
        = ({ cexBrowse with mode := Mode.Edit Field.LeftPath }, false) ∧
    step searchFail fsEmpty cexBrowse (KeyCode.Char 'L')
        = ({ cexBrowse with mode := Mode.Edit Field.RightPath }, false) :=
  c1_enter_edit_preserves_buffer searchFail fsEmpty cexBrowse rfl

/-- C2 counterexample: from the Edit-mode state `cexEdit` with input
buffer `"a"`, the Esc transition returns to Browse but the input buffer
is still `"a"`, not the empty string, contrary to the claim. -/
theorem c2_counterexample :
    (step searchFail fsEmpty cexEdit KeyCode.Esc).1.mode = Mode.Normal ∧
    (step searchFail fsEmpty cexEdit KeyCode.Esc).1.input ≠ "" := by
  refine ⟨rfl, ?_⟩; decide

/-- C2 amended: committing with Enter always clears the input buffer to
empty; cancelling with Esc leaves the input buffer unchanged (it is not
cleared); and Backspace drops the last character, so it empties a
one-character buffer — Enter is not the only buffer-emptying transition. -/
theorem c2_buffer_clearing (search : SearchOracle) (fs : FsOracle)
    (s : State) (f : Field) (h : s.mode = Mode.Edit f) :
    (step search fs s KeyCode.Enter).1.input = "" ∧
    (step search fs s KeyCode.Esc).1.input = s.input ∧
    (step search fs s KeyCode.Backspace).1.input = s.input.dropRight 1 := by
  obtain ⟨m, lp, rp, sug, lc, rc, inp, a, b, c⟩ := s
  change m = Mode.Edit f at h
  subst h
  refine ⟨?_, rfl, ?_⟩
  · cases f <;> rfl
  · exact (update_fzf_preserves (search (inp.dropRight 1))
      (State.mk (Mode.Edit f) lp rp sug lc rc (inp.dropRight 1) a b c)).2.2.2.2.2.1

/-- Witness for `c2_buffer_clearing` at the concrete state `cexEdit`. -/
theorem c2_buffer_clearing_witness :
    (step searchFail fsEmpty cexEdit KeyCode.Enter).1.input = "" ∧
    (step searchFail fsEmpty cexEdit KeyCode.Esc).1.input = cexEdit.input ∧
    (step searchFail fsEmpty cexEdit KeyCode.Backspace).1.input
        = cexEdit.input.dropRight 1 :=
  c2_buffer_clearing searchFail fsEmpty cexEdit Field.LeftPath rfl

/-- The state an Enter commit produces, as the spec describes it: the
target pane's path becomes the input buffer, its entries become the
lister's result on that buffer, the buffer is cleared, and the mode
returns to Browse. -/
def commitState (fs : FsOracle) (f : Field) (s : State) : State :=
  match f with
  | Field.LeftPath =>
      { s with left_path := s.input,
               left_contents := some (read_path_content fs s.input),
               input := "", mode := Mode.Normal }
  | Field.RightPath =>
      { s with right_path := s.input,
               right_contents := some (read_path_content fs s.input),
               input := "", mode := Mode.Normal }

/-- In Edit mode, Enter produces exactly the commit state. -/
theorem step_enter_eq (search : SearchOracle) (fs : FsOracle)
    (s : State) (f : Field) (h : s.mode = Mode.Edit f) :
    step search fs s KeyCode.Enter = (commitState fs f s, false) := by
  obtain ⟨m, lp, rp, sug, lc, rc, inp, a, b, c⟩ := s
  change m = Mode.Edit f at h
  subst h
  cases f <;> rfl

/-- C3: for every Edit(target) state and every buffer contents (valid
directory or not) and every filesystem, Enter sets the target pane's
path to the input buffer, stores the lister's (possibly empty) result in
the target pane's entries, clears the input buffer, and returns to
Browse mode; every other field is unchanged. -/
theorem c3_enter_commits (search : SearchOracle) (fs : FsOracle)
    (s : State) (f : Field) (h : s.mode = Mode.Edit f) :
    step search fs s KeyCode.Enter = (commitState fs f s, false) :=
  step_enter_eq search fs s f h

/-- Witness for `c3_enter_commits` at the concrete state `cexEdit`,
whose buffer `"a"` is not a readable directory under `fsEmpty`. -/
theorem c3_enter_commits_witness :
    step searchFail fsEmpty cexEdit KeyCode.Enter
        = (commitState fsEmpty Field.LeftPath cexEdit, false) :=
  c3_enter_commits searchFail fsEmpty cexEdit Field.LeftPath rfl

/-- C5: the search-result merge step `update_fzf` leaves the state — in
particular the existing suggestion list — exactly unchanged on a failed
query, and replaces the suggestion list with the returned ranked
sequence exactly on a successful query. -/
theorem c5_search_failure_preserves_suggestions (s : State) :
    (∀ e, update_fzf (Except.error e) s = s) ∧
    (∀ v, update_fzf (Except.ok v) s = { s with fzf_suggestions := some v }) :=
  ⟨fun _ => rfl, fun _ => rfl⟩

/-- One Down key press in the run loop, as a state-to-state function. -/
def pressDown (search : SearchOracle) (fs : FsOracle) (s : State) : State :=
  (step search fs s KeyCode.Down).1

/-- In Edit mode, a Down press keeps the mode and moves the suggestion
cursor from `some v` to `some (v+1)` and from `none` to `some 0`. -/
theorem pressDown_edit (search : SearchOracle) (fs : FsOracle)
    (s : State) (f : Field) (h : s.mode = Mode.Edit f) :
    (pressDown search fs s).mode = Mode.Edit f ∧
    (pressDown search fs s).fzf_list_state.selected
      = some (match s.fzf_list_state.selected with
              | some v => v + 1
              | none => 0) := by
  obtain ⟨m, lp, rp, sug, lc, rc, inp, a, b, c⟩ := s
  change m = Mode.Edit f at h
  subst h
  obtain ⟨sel⟩ := c
  cases sel <;> exact ⟨rfl, rfl⟩

/-- Iterating Down from a set cursor adds the number of presses to the
cursor and keeps the mode. -/
theorem pressDown_iterate_from_some (search : SearchOracle) (fs : FsOracle)
    (f : Field) (n : Nat) :
    ∀ (s : State), s.mode = Mode.Edit f → ∀ v,
      s.fzf_list_state.selected = some v →
      ((pressDown search fs)^[n] s).mode = Mode.Edit f ∧
      ((pressDown search fs)^[n] s).fzf_list_state.selected = some (v + n) := by
  induction n with
  | zero =>
      intro s h v hv
      exact ⟨h, by simpa using hv⟩
  | succ n ih =>
      intro s h v hv
      rw [Function.iterate_succ_apply]
      have hd := pressDown_edit search fs s f h
      rw [hv] at hd
      obtain ⟨h1, h2⟩ := ih (pressDown search fs s) hd.1 (v + 1) hd.2
      refine ⟨h1, ?_⟩
      rw [h2]
      congr 1
      omega

/-- C4: in Edit mode, Up maps `some v` with `v > 0` to `some (v-1)`,
`some 0` to `none`, and `none` to `none` (a full no-op); Down maps
`some v` to `some (v+1)` with no upper clamp and `none` to `some 0`;
and from `none`, pressing Down `n ≥ 1` times yields `some (n-1)`.
The embedding is total, so no transition panics or underflows. -/
theorem c4_suggestion_cursor (search : SearchOracle) (fs : FsOracle)
    (s : State) (f : Field) (h : s.mode = Mode.Edit f) :
    (∀ v, s.fzf_list_state.selected = some v → 0 < v →
        (step search fs s KeyCode.Up).1.fzf_list_state.selected = some (v - 1)) ∧
    (s.fzf_list_state.selected = some 0 →
        (step search fs s KeyCode.Up).1.fzf_list_state.selected = none) ∧
    (s.fzf_list_state.selected = none →
        step search fs s KeyCode.Up = (s, false)) ∧
    (∀ v, s.fzf_list_state.selected = some v →
        (step search fs s KeyCode.Down).1.fzf_list_state.selected = some (v + 1)) ∧
    (s.fzf_list_state.selected = none →
        (step search fs s KeyCode.Down).1.fzf_list_state.selected = some 0) ∧
    (s.fzf_list_state.selected = none → ∀ n, 1 ≤ n →
        ((pressDown search fs)^[n] s).fzf_list_state.selected = some (n - 1)) := by
  obtain ⟨m, lp, rp, sug, lc, rc, inp, a, b, c⟩ := s
  change m = Mode.Edit f at h
  subst h
  obtain ⟨sel⟩ := c
  refine ⟨?_, ?_, ?_, ?_, ?_, ?_⟩
  · intro v hv hpos
    change sel = some v at hv
    subst hv
    unfold step
    dsimp only
    rw [if_pos hpos]
    rfl
  · intro hv
    change sel = some 0 at hv
    subst hv
    rfl
  · intro hv
    change sel = none at hv
    subst hv
    rfl
  · intro v hv
    change sel = some v at hv
    subst hv
    rfl
  · intro hv
    change sel = none at hv
    subst hv
    rfl
  · intro hv n hn
    change sel = none at hv
    subst hv
    obtain ⟨n, rfl⟩ : ∃ m, n = m + 1 := ⟨n - 1, by omega⟩
    rw [Function.iterate_succ_apply]
    have h1 := pressDown_edit search fs
      (State.mk (Mode.Edit f) lp rp sug lc rc inp a b ⟨none⟩) f rfl
    have h2 := pressDown_iterate_from_some search fs f n
      (pressDown search fs
        (State.mk (Mode.Edit f) lp rp sug lc rc inp a b ⟨none⟩)) h1.1 0 h1.2
    rw [h2.2]
    congr 1
    omega

/-- An Edit-mode state whose suggestion cursor sits at index 1. -/
def cexEditSel : State := { cexEdit with fzf_list_state := ⟨some 1⟩ }

/-- Witness for `c4_suggestion_cursor` at concrete states: Up from
cursor 1 gives 0, Down from cursor 1 gives 2, and three Down presses
from an unset cursor give cursor 2. -/
theorem c4_suggestion_cursor_witness :
    (step searchFail fsEmpty cexEditSel KeyCode.Up).1.fzf_list_state.selected
        = some 0 ∧
    (step searchFail fsEmpty cexEditSel KeyCode.Down).1.fzf_list_state.selected
        = some 2 ∧
    ((pressDown searchFail fsEmpty)^[3] cexEdit).fzf_list_state.selected
        = some 2 := by
  have h := c4_suggestion_cursor searchFail fsEmpty cexEditSel Field.LeftPath rfl
  have h0 := c4_suggestion_cursor searchFail fsEmpty cexEdit Field.LeftPath rfl
  exact ⟨h.1 1 rfl (by decide), h.2.2.2.1 1 rfl, h0.2.2.2.2.2 rfl 3 (by decide)⟩

/-- Flattening the per-entry classification lists of `read_path_content`
equals filtering for successfully-classified regular files and keeping
their paths. -/
theorem files_flatten_eq_filter_map (l : List DirEntry) :
    (l.map (fun entry =>
        match entry.meta with
        | none => []
        | some kind => if kind = FileKind.file then [entry.path] else [])).flatten
      = (l.filter (fun e => e.meta == some FileKind.file)).map DirEntry.path := by
  induction l with
  | nil => rfl
  | cons e t ih =>
      obtain ⟨p, meta⟩ := e
      cases meta with
      | none => simpa using ih
      | some k => cases k <;> simpa using ih

/-- C6: the directory lister is total: an unreadable path yields the
empty list (never a failure), and a readable path yields exactly the
direct children whose metadata call succeeded and classified them as
regular files — a per-child failure excludes only that child. -/
theorem c6_lister_total (fs : FsOracle) (path : String) :
    (fs path = none → read_path_content fs path = []) ∧
    read_path_content fs path =
      ((((fs path).getD []).filterMap id).filter
          (fun e => e.meta == some FileKind.file)).map DirEntry.path := by
  cases hfs : fs path with
  | none =>
      constructor
      · intro
        simp [read_path_content, hfs]
      · simp [read_path_content, hfs]
  | some items =>
      constructor
      · intro hc
        cases hc
      · unfold read_path_content
        rw [hfs]
        simp only [Option.getD_some]
        exact files_flatten_eq_filter_map (items.filterMap id)

/-- Witness for `c6_lister_total`: on a filesystem where every
`read_dir` fails, listing a non-existent path returns the empty list. -/
theorem c6_lister_total_witness :
    read_path_content fsEmpty "/path/that/does/not/exist" = [] :=
  (c6_lister_total fsEmpty "/path/that/does/not/exist").1 rfl

/-- C8: in Browse mode, every key other than `q`, `H` and `L` is a
strict no-op: the whole state is returned unchanged, the loop does not
stop, and the result does not depend on the search or filesystem
oracles, so no side effect is requested. -/
theorem c8_browse_other_keys_noop (s : State) (k : KeyCode)
    (h : s.mode = Mode.Normal) (hq : k ≠ KeyCode.Char 'q')
    (hH : k ≠ KeyCode.Char 'H') (hL : k ≠ KeyCode.Char 'L') :
    ∀ (search : SearchOracle) (fs : FsOracle), step search fs s k = (s, false) := by
  intro search fs
  obtain ⟨m, lp, rp, sug, lc, rc, inp, a, b, c⟩ := s
  change m = Mode.Normal at h
  subst h
  cases k with
  | Char ch =>
      have hq' : ch ≠ 'q' := fun hc => hq (by rw [hc])
      have hH' : ch ≠ 'H' := fun hc => hH (by rw [hc])
      have hL' : ch ≠ 'L' := fun hc => hL (by rw [hc])
      unfold step
      dsimp only
      rw [if_neg hq', if_neg hH', if_neg hL']
  | Esc => rfl
  | Up => rfl
  | Down => rfl
  | Tab => rfl
  | Enter => rfl
  | Backspace => rfl
  | Other => rfl

/-- Witness for `c8_browse_other_keys_noop` at the initial state and the
key `x`. -/
theorem c8_browse_other_keys_noop_witness :
    step searchFail fsEmpty initState (KeyCode.Char 'x') = (initState, false) :=
  c8_browse_other_keys_noop initState (KeyCode.Char 'x') rfl
    (by decide) (by decide) (by decide) searchFail fsEmpty

/-- C9: in Browse mode the drawn frame places the left pane's path in
the left header region and the same left pane's path in the right
header region, and the frame does not depend on the right pane's path
at all, so the right pane's path is never rendered. -/
theorem c9_browse_renders_left_path_twice (s : State)
    (h : s.mode = Mode.Normal) :
    draw s = Frame.browse
        { leftHeader := s.left_path
          leftList := s.left_contents.getD []
          rightHeader := s.left_path } ∧
    ∀ rp, draw { s with right_path := rp } = draw s := by
  obtain ⟨m, lp, rp0, sug, lc, rc, inp, a, b, c⟩ := s
  change m = Mode.Normal at h
  subst h
  exact ⟨rfl, fun _ => rfl⟩

/-- Witness for `c9_browse_renders_left_path_twice` at a Browse state
whose two pane paths differ. -/
theorem c9_browse_renders_left_path_twice_witness :
    draw { initState with right_path := "/other" } = Frame.browse
        { leftHeader := ({ initState with right_path := "/other" } : State).left_path
          leftList := ({ initState with right_path := "/other" } : State).left_contents.getD []
          rightHeader := ({ initState with right_path := "/other" } : State).left_path } ∧
    draw { { initState with right_path := "/other" } with right_path := "/elsewhere" }
        = draw { initState with right_path := "/other" } :=
  ⟨(c9_browse_renders_left_path_twice { initState with right_path := "/other" } rfl).1,
   (c9_browse_renders_left_path_twice { initState with right_path := "/other" } rfl).2
      "/elsewhere"⟩

/-- Case analysis of a Browse-mode transition: the result is the state
unchanged (with or without the quit flag) or the state with only the
mode switched to one of the two edit targets. -/
theorem step_normal_cases (search : SearchOracle) (fs : FsOracle)
    (s : State) (k : KeyCode) (h : s.mode = Mode.Normal) :
    step search fs s k = (s, true) ∨
    step search fs s k = (s, false) ∨
    step search fs s k = ({ s with mode := Mode.Edit Field.LeftPath }, false) ∨
    step search fs s k = ({ s with mode := Mode.Edit Field.RightPath }, false) := by
  obtain ⟨m, lp, rp, sug, lc, rc, inp, a, b, c⟩ := s
  change m = Mode.Normal at h
  subst h
  cases k with
  | Char ch =>
      unfold step
      dsimp only
      by_cases h1 : ch = 'q'
      · rw [if_pos h1]
        exact Or.inl rfl
      · rw [if_neg h1]
        by_cases h2 : ch = 'H'
        · rw [if_pos h2]
          exact Or.inr (Or.inr (Or.inl rfl))
        · rw [if_neg h2]
          by_cases h3 : ch = 'L'
          · rw [if_pos h3]
            exact Or.inr (Or.inr (Or.inr rfl))
          · rw [if_neg h3]
            exact Or.inr (Or.inl rfl)
  | Esc => exact Or.inr (Or.inl rfl)
  | Up => exact Or.inr (Or.inl rfl)
  | Down => exact Or.inr (Or.inl rfl)
  | Tab => exact Or.inr (Or.inl rfl)
  | Enter => exact Or.inr (Or.inl rfl)
  | Backspace => exact Or.inr (Or.inl rfl)
  | Other => exact Or.inr (Or.inl rfl)

/-- An Edit-mode transition on any key other than Enter only ever
touches the mode, the input buffer, the suggestion list and the
suggestion cursor; both panes' paths and entries are untouched and the
loop does not stop. -/
theorem step_edit_cases (search : SearchOracle) (fs : FsOracle)
    (s : State) (f : Field) (k : KeyCode) (h : s.mode = Mode.Edit f)
    (hk : k ≠ KeyCode.Enter) :
    ∃ md inp' sug' fz,
      step search fs s k =
        ({ s with mode := md, input := inp',
                  fzf_suggestions := sug', fzf_list_state := fz }, false) := by
  obtain ⟨m, lp, rp, sug, lc, rc, inp, a, b, c⟩ := s
  change m = Mode.Edit f at h
  subst h
  obtain ⟨sel⟩ := c
  cases k with
  | Char ch =>
      refine ⟨Mode.Edit f, inp.push ch, ?_, ⟨sel⟩, ?_⟩
      · exact (update_fzf (search (inp.push ch))
          (State.mk (Mode.Edit f) lp rp sug lc rc (inp.push ch) a b ⟨sel⟩)).fzf_suggestions
      · show (update_fzf (search (inp.push ch))
            (State.mk (Mode.Edit f) lp rp sug lc rc (inp.push ch) a b ⟨sel⟩), false) = _
        cases hr : search (inp.push ch) with
        | ok v => rfl
        | error e => rfl
  | Backspace =>
      refine ⟨Mode.Edit f, inp.dropRight 1, ?_, ⟨sel⟩, ?_⟩
      · exact (update_fzf (search (inp.dropRight 1))
          (State.mk (Mode.Edit f) lp rp sug lc rc (inp.dropRight 1) a b ⟨sel⟩)).fzf_suggestions
      · show (update_fzf (search (inp.dropRight 1))
            (State.mk (Mode.Edit f) lp rp sug lc rc (inp.dropRight 1) a b ⟨sel⟩), false) = _
        cases hr : search (inp.dropRight 1) with
        | ok v => rfl
        | error e => rfl
  | Esc => exact ⟨Mode.Normal, inp, sug, ⟨sel⟩, rfl⟩
  | Up =>
      cases sel with
      | none => exact ⟨Mode.Edit f, inp, sug, ⟨none⟩, rfl⟩
      | some v =>
          by_cases hv : v > 0
          · refine ⟨Mode.Edit f, inp, sug, ⟨some (v - 1)⟩, ?_⟩
            unfold step
            dsimp only
            rw [if_pos hv]
            rfl
          · refine ⟨Mode.Edit f, inp, sug, ⟨none⟩, ?_⟩
            unfold step
            dsimp only
            rw [if_neg hv]
            rfl
  | Down =>
      cases sel with
      | none => exact ⟨Mode.Edit f, inp, sug, ⟨some 0⟩, rfl⟩
      | some v => exact ⟨Mode.Edit f, inp, sug, ⟨some (v + 1)⟩, rfl⟩
  | Tab => exact ⟨Mode.Edit f, inp, sug, ⟨sel⟩, rfl⟩
  | Enter => exact absurd rfl hk
  | Other => exact ⟨Mode.Edit f, inp, sug, ⟨sel⟩, rfl⟩

/-- C7: a pane's entries change only on an Enter commit in Edit mode
targeting that pane — under every other transition each pane keeps its
entries — and the scenario `H` then `Esc` from Browse mode returns to
Browse with the left pane's path and entries exactly as before. -/
theorem c7_entries_stability (search : SearchOracle) (fs : FsOracle)
    (s : State) (k : KeyCode) :
    ((step search fs s k).1.left_contents = s.left_contents ∨
        (s.mode = Mode.Edit Field.LeftPath ∧ k = KeyCode.Enter)) ∧
    ((step search fs s k).1.right_contents = s.right_contents ∨
        (s.mode = Mode.Edit Field.RightPath ∧ k = KeyCode.Enter)) ∧
    (s.mode = Mode.Normal →
        (step search fs (step search fs s (KeyCode.Char 'H')).1
            KeyCode.Esc).1.left_path = s.left_path ∧
        (step search fs (step search fs s (KeyCode.Char 'H')).1
            KeyCode.Esc).1.left_contents = s.left_contents ∧
        (step search fs (step search fs s (KeyCode.Char 'H')).1
            KeyCode.Esc).1.mode = Mode.Normal) := by
  refine ⟨?_, ?_, ?_⟩
  · cases hm : s.mode with
    | Normal =>
        left
        rcases step_normal_cases search fs s k hm with h1 | h1 | h1 | h1 <;> simp [h1]
    | Edit f =>
        by_cases hk : k = KeyCode.Enter
        · subst hk
          cases f with
          | LeftPath => exact Or.inr ⟨rfl, rfl⟩
          | RightPath =>
              left
              rw [step_enter_eq search fs s Field.RightPath hm]
              cases s
              rfl
        · left
          obtain ⟨md, inp', sug', fz, hs⟩ := step_edit_cases search fs s f k hm hk
          simp [hs]
  · cases hm : s.mode with
    | Normal =>
        left
        rcases step_normal_cases search fs s k hm with h1 | h1 | h1 | h1 <;> simp [h1]
    | Edit f =>
        by_cases hk : k = KeyCode.Enter
        · subst hk
          cases f with
          | RightPath => exact Or.inr ⟨rfl, rfl⟩
          | LeftPath =>
              left
              rw [step_enter_eq search fs s Field.LeftPath hm]
              cases s
              rfl
        · left
          obtain ⟨md, inp', sug', fz, hs⟩ := step_edit_cases search fs s f k hm hk
          simp [hs]
  · intro hm
    obtain ⟨m, lp, rp, sug, lc, rc, inp, a, b, c⟩ := s
    change m = Mode.Normal at hm
    subst hm
    exact ⟨rfl, rfl, rfl⟩

/-- Witness for `c7_entries_stability`: the `H` then `Esc` scenario from
the concrete Browse state `cexBrowse`. -/
theorem c7_entries_stability_witness :
    (step searchFail fsEmpty (step searchFail fsEmpty cexBrowse (KeyCode.Char 'H')).1
        KeyCode.Esc).1.left_path = cexBrowse.left_path ∧
    (step searchFail fsEmpty (step searchFail fsEmpty cexBrowse (KeyCode.Char 'H')).1
        KeyCode.Esc).1.left_contents = cexBrowse.left_contents ∧
    (step searchFail fsEmpty (step searchFail fsEmpty cexBrowse (KeyCode.Char 'H')).1
        KeyCode.Esc).1.mode = Mode.Normal :=
  (c7_entries_stability searchFail fsEmpty cexBrowse (KeyCode.Char 'H')).2.2 rfl

/-- C10: the suggestion cursor is modified only by Up and Down in Edit
mode: in Browse mode every key preserves it, and in Edit mode every key
other than Up and Down — including Esc, Enter and the keys that re-enter
edit mode later — preserves it, so its value persists across edit
sessions. -/
theorem c10_cursor_only_up_down (search : SearchOracle) (fs : FsOracle)
    (s : State) (k : KeyCode)
    (h : s.mode = Mode.Normal ∨ (k ≠ KeyCode.Up ∧ k ≠ KeyCode.Down)) :
    (step search fs s k).1.fzf_list_state = s.fzf_list_state := by
  obtain ⟨m, lp, rp, sug, lc, rc, inp, a, b, c⟩ := s
  cases m with
  | Normal =>
      rcases step_normal_cases search fs
          (State.mk Mode.Normal lp rp sug lc rc inp a b c) k rfl with
        h1 | h1 | h1 | h1 <;> simp [h1]
  | Edit f =>
      rcases h with h | ⟨hu, hd⟩
      · simp at h
      · cases k with
        | Up => exact absurd rfl hu
        | Down => exact absurd rfl hd
        | Esc => rfl
        | Tab => rfl
        | Other => rfl
        | Enter => cases f <;> rfl
        | Char ch =>
            exact (update_fzf_preserves (search (inp.push ch))
              (State.mk (Mode.Edit f) lp rp sug lc rc (inp.push ch) a b c)).2.2.2.2.2.2
        | Backspace =>
            exact (update_fzf_preserves (search (inp.dropRight 1))
              (State.mk (Mode.Edit f) lp rp sug lc rc (inp.dropRight 1) a b c)).2.2.2.2.2.2

/-- Witness for `c10_cursor_only_up_down`: Esc keeps the cursor of the
concrete state `cexEditSel` at index 1. -/
theorem c10_cursor_only_up_down_witness :
    (step searchFail fsEmpty cexEditSel KeyCode.Esc).1.fzf_list_state
        = cexEditSel.fzf_list_state :=
  c10_cursor_only_up_down searchFail fsEmpty cexEditSel KeyCode.Esc
    (Or.inr ⟨by decide, by decide⟩)

end FileBrowser
